import Mathlib

/-!
Verification of the Packet Tracer container codec
(`src/backend/app/services/pkt_crypto.py`, `src/backend/Decipher/{cmac,ctr,eax,pt_crypto}.py`)
against its natural-language specification.

Byte buffers are embedded as `List Nat` (each element a byte value); Python `bytes`
slicing/XOR semantics are translated explicitly.  Fallible Python code (functions that
can raise) is embedded as `Except PyError _`.
-/

/-- Python exception classes raised by the codec, carrying the message string.
`valueError` embeds Python's `ValueError`, `structError` embeds `struct.error`,
`zlibError` embeds the decompression-failure exceptions of `zlib`/`gzip`. -/
inductive PyError where
  | valueError (msg : String)
  | structError (msg : String)
  | zlibError (msg : String)
deriving DecidableEq, Repr

/-- The Python exception *type* (class name) of an error, forgetting the message.
Used to state claims about catching by exception type. -/
def PyError.typeName : PyError → String
  | .valueError _ => "ValueError"
  | .structError _ => "struct.error"
  | .zlibError _ => "zlib.error"

/-- `Decipher/cmac.py`: `xor_bytes(a, b) = bytes(x ^ y for x, y in zip(a, b))`.
Python `zip` truncates to the shorter argument, as does `List.zipWith`. -/
def xor_bytes (a b : List Nat) : List Nat :=
  List.zipWith (fun x y => x ^^^ y) a b

theorem xor_lt_256 {x y : Nat} (hx : x < 256) (hy : y < 256) : x ^^^ y < 256 := by
  have h28 : (256 : Nat) = 2 ^ 8 := by norm_num
  rw [h28] at hx hy ⊢
  exact Nat.xor_lt_two_pow hx hy

/-- `Decipher/cmac.py`: `BLOCK_SIZE = 16`. -/
def BLOCK_SIZE : Nat := 16

/-- `app/services/pkt_crypto.py` / spec §4.5: `obf_stage2`, the position-keyed XOR pass
(`result[i] = data[i] ^ ((L - i) & 0xFF)` with `L = len(data)`).  The Python
`enumerate` loop is embedded as a map over the index range. -/
def obf_stage2 (data : List Nat) : List Nat :=
  (List.range data.length).map (fun i => data.getD i 0 ^^^ ((data.length - i) &&& 0xFF))

/-- `Decipher/pt_crypto.py`: `deobf_stage2`, byte-for-byte the same formula as
`obf_stage2` (the pass is self-inverse). -/
def deobf_stage2 (data : List Nat) : List Nat :=
  (List.range data.length).map (fun i => data.getD i 0 ^^^ ((data.length - i) &&& 0xFF))

/-- The XOR key of obfuscation pass B at index `i` of a buffer of length `L`:
Python `(L - i*L) & 0xFF`, which for a negative difference is two's-complement
masking, i.e. the nonnegative residue of `L - i*L` modulo 256. -/
def stage1Key (L i : Nat) : Nat :=
  (((L : Int) - (i : Int) * (L : Int)) % 256).toNat

/-- `app/services/pkt_crypto.py`: `obf_stage1` — XOR byte `i` with `stage1Key` and
write it to the mirrored position `L-1-i`.  Embedded as a map over the *output*
index `j`, whose source index is `L-1-j`. -/
def obf_stage1 (data : List Nat) : List Nat :=
  (List.range data.length).map
    (fun j => data.getD (data.length - 1 - j) 0 ^^^ stage1Key data.length (data.length - 1 - j))

/-- `Decipher/pt_crypto.py`: `deobf_stage1(data) = bytes(data[L-1-i] ^ (L - i*L & 0xFF)
for i in range(L))`.  The same expression is inlined in
`decrypt_pkt_data` (`pkt_crypto.py` line 196). -/
def deobf_stage1 (data : List Nat) : List Nat :=
  (List.range data.length).map
    (fun i => data.getD (data.length - 1 - i) 0 ^^^ stage1Key data.length i)

-- Basic pointwise lemmas ---------------------------------------------------

theorem obf_stage2_length (data : List Nat) : (obf_stage2 data).length = data.length := by
  simp [obf_stage2]

theorem obf_stage2_getD (data : List Nat) (i : Nat) :
    (obf_stage2 data).getD i 0 = data.getD i 0 ^^^ ((data.length - i) &&& 0xFF) := by
  rcases Nat.lt_or_ge i data.length with h | h
  · have hlen : i < (obf_stage2 data).length := by
      rwa [obf_stage2_length]
    rw [List.getD_eq_getElem _ _ hlen]
    simp [obf_stage2]
  · have h1 : (obf_stage2 data).getD i 0 = 0 := by
      apply List.getD_eq_default
      rwa [obf_stage2_length]
    have h2 : data.getD i 0 = 0 := List.getD_eq_default _ _ h
    have h3 : data.length - i = 0 := Nat.sub_eq_zero_of_le h
    rw [h1, h2, h3]
    decide

theorem obf_stage2_involution (data : List Nat) :
    obf_stage2 (obf_stage2 data) = data := by
  apply List.ext_getElem
  · simp [obf_stage2_length]
  · intro i h1 h2
    have hlen : (obf_stage2 data).length = data.length := obf_stage2_length data
    have hi : i < data.length := h2
    have e1 : (obf_stage2 (obf_stage2 data))[i] = (obf_stage2 (obf_stage2 data)).getD i 0 := by
      rw [List.getD_eq_getElem _ _ h1]
    rw [e1, obf_stage2_getD, hlen, obf_stage2_getD]
    rw [List.getD_eq_getElem _ _ hi]
    rw [Nat.xor_assoc, Nat.xor_self, Nat.xor_zero]

theorem deobf_stage2_eq_obf_stage2 (data : List Nat) :
    deobf_stage2 data = obf_stage2 data := rfl

theorem obf_stage1_length (data : List Nat) : (obf_stage1 data).length = data.length := by
  simp [obf_stage1]

theorem deobf_stage1_length (data : List Nat) : (deobf_stage1 data).length = data.length := by
  simp [deobf_stage1]

theorem deobf_stage1_getElem (data : List Nat) (i : Nat) (h : i < (deobf_stage1 data).length) :
    (deobf_stage1 data)[i]
      = data.getD (data.length - 1 - i) 0 ^^^ stage1Key data.length i := by
  simp only [deobf_stage1] at h ⊢
  rw [List.getElem_map, List.getElem_range]

theorem obf_stage1_getD (data : List Nat) (i : Nat) (hi : i < data.length) :
    (obf_stage1 data).getD i 0
      = data.getD (data.length - 1 - i) 0 ^^^ stage1Key data.length (data.length - 1 - i) := by
  have hlt : i < (obf_stage1 data).length := by rwa [obf_stage1_length]
  rw [List.getD_eq_getElem _ _ hlt]
  simp only [obf_stage1]
  rw [List.getElem_map, List.getElem_range]

theorem deobf_stage1_obf_stage1 (data : List Nat) :
    deobf_stage1 (obf_stage1 data) = data := by
  apply List.ext_getElem
  · simp [deobf_stage1_length, obf_stage1_length]
  · intro i h1 h2
    have hlen : (obf_stage1 data).length = data.length := obf_stage1_length data
    have hi : i < data.length := h2
    rw [deobf_stage1_getElem _ _ h1, hlen]
    have hmlt : data.length - 1 - i < data.length := by omega
    rw [obf_stage1_getD _ _ hmlt]
    have hback : data.length - 1 - (data.length - 1 - i) = i := by omega
    rw [hback]
    rw [List.getD_eq_getElem _ _ hi]
    rw [Nat.xor_assoc, Nat.xor_self, Nat.xor_zero]

-- ==========================================================================
-- CMAC (`Decipher/cmac.py`)
-- ==========================================================================

/-- Helper for `left_shift_one`: the Python loop walks the big-endian array from its
last byte to its first, threading a carry; this helper performs the identical
computation on the *reversed* (little-endian) list, front to back, with `c` the
incoming carry (`0` at the least-significant byte). -/
def lshLE (c : Nat) : List Nat → List Nat
  | [] => []
  | b :: rest => (((b <<< 1) &&& 0xFF) ||| c) :: lshLE ((b &&& 0x80) >>> 7) rest

/-- `Decipher/cmac.py`: `left_shift_one` — 1-bit left shift of a big-endian byte
string, dropping the overall top bit. -/
def left_shift_one (bitstring : List Nat) : List Nat :=
  (lshLE 0 bitstring.reverse).reverse

/-- `Decipher/cmac.py`: `generate_subkeys` — K1 from `L = E(0^16)` by the GF(2^128)
doubling step (shift, conditionally XOR `0x87` into the last byte when the top bit of
`L` is set), K2 from K1 the same way. -/
def generate_subkeys (E : List Nat → List Nat) : List Nat × List Nat :=
  let L := E (List.replicate BLOCK_SIZE 0)
  let K1₀ := left_shift_one L
  let K1 := if L.getD 0 0 &&& 0x80 ≠ 0
            then xor_bytes K1₀ (List.replicate 15 0 ++ [0x87]) else K1₀
  let K2₀ := left_shift_one K1
  let K2 := if K1.getD 0 0 &&& 0x80 ≠ 0
            then xor_bytes K2₀ (List.replicate 15 0 ++ [0x87]) else K2₀
  (K1, K2)

/-- `Decipher/cmac.py`: `pad(block)` appends `0x80` and then zero bytes up to 16. -/
def pad (block : List Nat) : List Nat :=
  (block ++ [0x80]) ++ List.replicate (BLOCK_SIZE - (block.length + 1)) 0

/-- The block split `[data[i:i+16] for i in range(0, len(data), 16)]` of
`CMAC.digest`: Python `range(0, n, 16)` has `(n + 15) / 16` elements. -/
def chunks16 (data : List Nat) : List (List Nat) :=
  (List.range ((data.length + 15) / 16)).map (fun i => (data.drop (i * 16)).take 16)

/-- `Decipher/cmac.py`: `CMAC.digest`.  The subkeys are derived from the block-encrypt
function exactly as the `CMAC.__init__`/`digest` pair does; the selected `(blocks,
last)` pair mirrors the three branches of the source, and the CBC chain is the
`for block in blocks` loop. -/
def CMAC.digest (E : List Nat → List Nat) (data : List Nat) : List Nat :=
  let ks := generate_subkeys E
  let pair : List (List Nat) × List Nat :=
    if data.length = 0 then
      ([], xor_bytes (pad []) ks.2)
    else
      let blocks := chunks16 data
      if (blocks.getLastD []).length = BLOCK_SIZE then
        (blocks.dropLast, xor_bytes (blocks.getLastD []) ks.1)
      else
        (blocks.dropLast, xor_bytes (pad (blocks.getLastD [])) ks.2)
  let X := pair.1.foldl (fun X block => E (xor_bytes X block)) (List.replicate BLOCK_SIZE 0)
  E (xor_bytes X pair.2)

-- ==========================================================================
-- CTR (`Decipher/ctr.py`)
-- ==========================================================================

/-- Helper for `inc_counter_be`: the Python loop walks the big-endian counter from its
last byte backwards, incrementing and stopping at the first byte that does not wrap
to zero; this helper is the identical computation on the reversed (little-endian)
list. -/
def incLE : List Nat → List Nat
  | [] => []
  | b :: rest =>
    let nb := (b + 1) &&& 0xFF
    if nb = 0 then nb :: incLE rest else nb :: rest

/-- `Decipher/ctr.py`: `inc_counter_be` — increment a big-endian 128-bit counter,
with carry propagating from the least-significant (last) byte and full rollover to
all-zero. -/
def inc_counter_be (counter : List Nat) : List Nat :=
  (incLE counter.reverse).reverse

/-- The `while offset < len(data)` loop of `CTR.process`, with an explicit fuel
parameter (one unit per loop iteration; `process` supplies `data.length`, an upper
bound on the iteration count) so the definition is structurally recursive. -/
def ctrGo (E : List Nat → List Nat) : Nat → List Nat → List Nat → List Nat
  | 0, _, _ => []
  | fuel + 1, ctr, data =>
    if data.isEmpty then []
    else
      xor_bytes (data.take BLOCK_SIZE) ((E ctr).take (data.take BLOCK_SIZE).length)
        ++ ctrGo E fuel (inc_counter_be ctr) (data.drop BLOCK_SIZE)

/-- `Decipher/ctr.py`: `CTR.process` — for each 16-byte chunk (the last possibly
shorter), XOR with `E(counter)` truncated to the chunk length, incrementing the
counter after each block. -/
def CTR.process (E : List Nat → List Nat) (counter data : List Nat) : List Nat :=
  ctrGo E data.length counter data

-- ==========================================================================
-- EAX (`Decipher/eax.py`)
-- ==========================================================================

/-- `Decipher/eax.py`: the OMAC-with-domain-separation helper
`cmac.digest(0^15 ++ [p] ++ data)` (named to avoid ending in the source name's last
word). -/
def omacPrefixed (E : List Nat → List Nat) (p : Nat) (data : List Nat) : List Nat :=
  CMAC.digest E ((List.replicate (BLOCK_SIZE - 1) 0 ++ [p]) ++ data)

/-- The EAX tag `N ⊕ H ⊕ C` recomputed from nonce, ciphertext and associated data —
the expression shared by the last lines of `EAX.encrypt` and `EAX.decrypt`. -/
def eaxTag (E : List Nat → List Nat) (nonce ciphertext aad : List Nat) : List Nat :=
  xor_bytes (xor_bytes (omacPrefixed E 0x00 nonce) (omacPrefixed E 0x01 aad))
    (omacPrefixed E 0x02 ciphertext)

/-- `Decipher/eax.py`: `EAX.encrypt` — CTR over the plaintext starting from
`N = OMAC(0x00, nonce)`, tag `N ⊕ H ⊕ C`. -/
def EAX.encrypt (E : List Nat → List Nat) (nonce plaintext : List Nat)
    (aad : List Nat) : List Nat × List Nat :=
  let n_tag := omacPrefixed E 0x00 nonce
  let ciphertext := CTR.process E n_tag plaintext
  (ciphertext, eaxTag E nonce ciphertext aad)

/-- `Decipher/eax.py`: `EAX.decrypt` — recover the plaintext by CTR, recompute the
tag from the supplied ciphertext/aad, and raise `ValueError("EAX authentication
failed")` unless the recomputed tag equals the supplied tag. -/
def EAX.decrypt (E : List Nat → List Nat) (nonce ciphertext tag aad : List Nat) :
    Except PyError (List Nat) :=
  let n_tag := omacPrefixed E 0x00 nonce
  let plaintext := CTR.process E n_tag ciphertext
  if eaxTag E nonce ciphertext aad = tag then Except.ok plaintext
  else Except.error (PyError.valueError "EAX authentication failed")

-- ==========================================================================
-- Container pipeline (`app/services/pkt_crypto.py`, `Decipher/pt_crypto.py`)
-- ==========================================================================

/-- `pkt_crypto.py`: `KEY = bytes([137] * 16)`. -/
def KEY : List Nat := List.replicate 16 137

/-- `pkt_crypto.py`: `IV = bytes([16] * 16)`. -/
def IV : List Nat := List.replicate 16 16

/-- Modelled from the spec: the Twofish block-encrypt function under the fixed key
(`Decipher/twofish.py` is imported by the source but absent from `src/`).  Spec §4.1
fixes only the cipher's contract — a deterministic keyed map from a 16-byte block to
a 16-byte block with an immutable key schedule — not its internal rounds, so the
keyed permutation is modelled as byte-wise XOR of the (masked, zero-padded to 16
bytes) input block with `KEY`.  Every theorem below that depends on cipher behaviour
is stated for an arbitrary block-encrypt function `E`; this model is used only to
instantiate the concrete pipeline entry points and witnesses. -/
def twofishPT (block : List Nat) : List Nat :=
  List.zipWith (fun b k => (b &&& 0xFF) ^^^ k)
    (block.take 16 ++ List.replicate (16 - block.length) 0) KEY

/-- Modelled from the spec: Python stdlib `zlib.compress` (an external collaborator,
not part of the repository).  Spec §4.5 requires only that the compressed payload be
a zlib-wrapped deflate stream — in particular one that does *not* begin with the gzip
magic bytes `1F 8B` — and that decompression invert compression; it is modelled as
the standard zlib header `78 9C` followed by the raw data. -/
def zlib_compress (data : List Nat) : List Nat :=
  0x78 :: 0x9C :: data

/-- Modelled from the spec: Python stdlib `zlib.decompress`, the inverse of
`zlib_compress`; any stream not produced by `zlib_compress` fails with a
`zlib.error`, matching the stdlib's behaviour on malformed streams. -/
def zlib_decompress (data : List Nat) : Except PyError (List Nat) :=
  if data.take 2 = [0x78, 0x9C] then Except.ok (data.drop 2)
  else Except.error (PyError.zlibError "Error -3 while decompressing data")

/-- Modelled from the spec: Python stdlib `gzip.decompress` (external collaborator).
Spec §4.5 step 5 requires only that a gzip-framed stream be recognized by its magic
bytes `1F 8B` and inflated; it is modelled as magic bytes followed by the raw data,
with any other stream failing. -/
def gzip_decompress (data : List Nat) : Except PyError (List Nat) :=
  if data.take 2 = [0x1F, 0x8B] then Except.ok (data.drop 2)
  else Except.error (PyError.zlibError "Not a gzipped file")

/-- Python `struct.pack(">I", size)`: the 4 big-endian bytes of `size`, raising
`struct.error` when `size` does not fit an unsigned 32-bit integer. -/
def pack_be32 (size : Nat) : Except PyError (List Nat) :=
  if size < 2 ^ 32 then
    Except.ok [size / 2 ^ 24 % 256, size / 2 ^ 16 % 256, size / 2 ^ 8 % 256, size % 256]
  else Except.error (PyError.structError "argument out of range")

/-- Big-endian integer value of a byte string (the value computed by Python
`struct.unpack(">I", b)[0]` once the length-4 check has passed). -/
def unpackNat (b : List Nat) : Nat :=
  b.foldl (fun a x => a * 256 + x) 0

/-- Python `struct.unpack(">I", b)[0]`, which raises `struct.error` unless `b` is
exactly 4 bytes. -/
def unpack_be32 (b : List Nat) : Except PyError Nat :=
  if b.length = 4 then Except.ok (unpackNat b)
  else Except.error (PyError.structError "unpack requires a buffer of 4 bytes")

/-- `pkt_crypto.py`: `compress_qt` — 4-byte big-endian original size header followed
by the zlib stream. -/
def compress_qt (xml_data : List Nat) : Except PyError (List Nat) :=
  match pack_be32 xml_data.length with
  | Except.error e => Except.error e
  | Except.ok header => Except.ok (header ++ zlib_compress xml_data)

/-- `Decipher/pt_crypto.py`: `uncompress_qt` — read the 4-byte big-endian size from
`blob[:4]`, zlib-decompress the remainder, truncate to the size. -/
def uncompress_qt (blob : List Nat) : Except PyError (List Nat) :=
  match unpack_be32 (blob.take 4) with
  | Except.error e => Except.error e
  | Except.ok size =>
    match zlib_decompress (blob.drop 4) with
    | Except.error e => Except.error e
    | Except.ok xml => Except.ok (xml.take size)

/-- The decompression tail of `decrypt_pkt_data` (`pkt_crypto.py` lines 210–227),
applied to the deobfuscated buffer `stage2`: reject buffers shorter than 6 bytes,
read the 4-byte big-endian size, dispatch on the gzip magic bytes `1F 8B` between the
gzip and zlib decompressors, truncate the inflated result to the size, and wrap any
decompression failure in `ValueError("Invalid compressed payload in PKT file")`. -/
def qt_inflate (stage2 : List Nat) : Except PyError (List Nat) :=
  if stage2.length < 6 then
    Except.error (PyError.valueError "Corrupted PKT payload: too short after deobfuscation")
  else
    match (if (stage2.drop 4).take 2 = [0x1F, 0x8B] then gzip_decompress (stage2.drop 4)
           else zlib_decompress (stage2.drop 4)) with
    | Except.ok xml => Except.ok (xml.take (unpackNat (stage2.take 4)))
    | Except.error _ => Except.error (PyError.valueError "Invalid compressed payload in PKT file")

/-- `pkt_crypto.py`: `encrypt_pkt_data`, parameterized by the block-encrypt function
`E` standing for `Twofish(KEY).encrypt`: Qt compression, pass-A obfuscation,
EAX encryption with nonce `IV` and empty associated data (tag appended after the
ciphertext), pass-B obfuscation. -/
def encrypt_pkt_dataWith (E : List Nat → List Nat) (xml_data : List Nat) :
    Except PyError (List Nat) :=
  match compress_qt xml_data with
  | Except.error e => Except.error e
  | Except.ok compressed =>
    let obfuscated := obf_stage2 compressed
    let ct := EAX.encrypt E IV obfuscated []
    Except.ok (obf_stage1 (ct.1 ++ ct.2))

/-- `pkt_crypto.py`: `decrypt_pkt_data`, parameterized by the block-encrypt function:
undo pass B (the source inlines the `deobf_stage1` formula), split off the trailing
16-byte tag (Python `stage1[:-16]` / `stage1[-16:]`), EAX-decrypt, undo pass A
(the source calls `obf_stage2`, which is self-inverse), then decompress via
`qt_inflate`. -/
def decrypt_pkt_dataWith (E : List Nat → List Nat) (pkt_data : List Nat) :
    Except PyError (List Nat) :=
  match EAX.decrypt E IV
      ((deobf_stage1 pkt_data).take ((deobf_stage1 pkt_data).length - 16))
      ((deobf_stage1 pkt_data).drop ((deobf_stage1 pkt_data).length - 16)) [] with
  | Except.error e => Except.error e
  | Except.ok decrypted => qt_inflate (obf_stage2 decrypted)

/-- `Decipher/pt_crypto.py`: the legacy `decrypt_pkt`, parameterized by the
block-encrypt function: `deobf_stage1`, EAX decrypt of the `(all but last 16, last
16)` split with nonce `IV`, `deobf_stage2`, then `uncompress_qt` (zlib only, no
minimum-length check, size read before decompressing). -/
def decrypt_pktWith (E : List Nat → List Nat) (pkt : List Nat) :
    Except PyError (List Nat) :=
  match EAX.decrypt E IV
      ((deobf_stage1 pkt).take ((deobf_stage1 pkt).length - 16))
      ((deobf_stage1 pkt).drop ((deobf_stage1 pkt).length - 16)) [] with
  | Except.error e => Except.error e
  | Except.ok decrypted => uncompress_qt (deobf_stage2 decrypted)

/-- `pkt_crypto.py`: `encrypt_pkt_data` with the modelled Twofish instance. -/
def encrypt_pkt_data (xml_data : List Nat) : Except PyError (List Nat) :=
  encrypt_pkt_dataWith twofishPT xml_data

/-- `pkt_crypto.py`: `decrypt_pkt_data` with the modelled Twofish instance. -/
def decrypt_pkt_data (pkt_data : List Nat) : Except PyError (List Nat) :=
  decrypt_pkt_dataWith twofishPT pkt_data

/-- `Decipher/pt_crypto.py`: `decrypt_pkt` with the modelled Twofish instance. -/
def decrypt_pkt (pkt : List Nat) : Except PyError (List Nat) :=
  decrypt_pktWith twofishPT pkt

-- ==========================================================================
-- XOR and CTR lemmas
-- ==========================================================================

theorem xor_bytes_length (a b : List Nat) :
    (xor_bytes a b).length = min a.length b.length := by
  simp [xor_bytes]

theorem xor_bytes_cancel (a b : List Nat) (h : b.length = a.length) :
    xor_bytes (xor_bytes a b) b = a := by
  induction a generalizing b with
  | nil => simp [xor_bytes]
  | cons x xs ih =>
    cases b with
    | nil => simp at h
    | cons y ys =>
      simp only [xor_bytes, List.zipWith_cons_cons]
      rw [Nat.xor_assoc, Nat.xor_self, Nat.xor_zero]
      have hy : ys.length = xs.length := by simpa using h
      have := ih ys hy
      simp only [xor_bytes] at this
      rw [this]

theorem ctrGo_nil (E : List Nat → List Nat) (f : Nat) (c : List Nat) :
    ctrGo E f c [] = [] := by
  cases f <;> simp [ctrGo]

theorem ctrGo_fuel (E : List Nat → List Nat) :
    ∀ f₁ f₂ c d, d.length ≤ f₁ → d.length ≤ f₂ → ctrGo E f₁ c d = ctrGo E f₂ c d := by
  intro f₁
  induction f₁ with
  | zero =>
    intro f₂ c d h1 _
    have : d = [] := List.eq_nil_of_length_eq_zero (Nat.le_zero.mp h1)
    subst this
    rw [ctrGo_nil, ctrGo_nil]
  | succ f ih =>
    intro f₂ c d h1 h2
    cases d with
    | nil => rw [ctrGo_nil, ctrGo_nil]
    | cons x xs =>
      cases f₂ with
      | zero => simp at h2
      | succ f₂' =>
        simp only [ctrGo, List.isEmpty_cons, Bool.false_eq_true, if_false]
        congr 1
        apply ih
        · simp only [List.length_drop, List.length_cons, BLOCK_SIZE]
          simp only [List.length_cons] at h1
          omega
        · simp only [List.length_drop, List.length_cons, BLOCK_SIZE]
          simp only [List.length_cons] at h2
          omega

theorem ctr_process_go (E : List Nat → List Nat) (f : Nat) (c d : List Nat)
    (h : d.length ≤ f) : CTR.process E c d = ctrGo E f c d := by
  unfold CTR.process
  exact ctrGo_fuel E d.length f c d (Nat.le_refl _) h

theorem ctr_process_nil (E : List Nat → List Nat) (c : List Nat) :
    CTR.process E c [] = [] := ctrGo_nil E 0 c

theorem ctr_process_cons (E : List Nat → List Nat) (c d : List Nat) (hd : d ≠ []) :
    CTR.process E c d
      = xor_bytes (d.take BLOCK_SIZE) ((E c).take (d.take BLOCK_SIZE).length)
        ++ CTR.process E (inc_counter_be c) (d.drop BLOCK_SIZE) := by
  cases d with
  | nil => exact absurd rfl hd
  | cons x xs =>
    show ctrGo E (x :: xs).length c (x :: xs) = _
    simp only [List.length_cons, ctrGo, List.isEmpty_cons, Bool.false_eq_true, if_false]
    congr 1
    symm
    apply ctr_process_go
    simp only [List.length_drop, List.length_cons, BLOCK_SIZE]
    omega

theorem ctr_process_length (E : List Nat → List Nat) (hE : ∀ b, (E b).length = 16)
    (c d : List Nat) : (CTR.process E c d).length = d.length := by
  generalize hn : d.length = n
  induction n using Nat.strong_induction_on generalizing c d with
  | _ n ih =>
    cases d with
    | nil =>
      rw [ctr_process_nil]
      simpa using hn
    | cons x xs =>
      rw [ctr_process_cons E c (x :: xs) (by simp)]
      rw [List.length_append]
      have hdrop : ((x :: xs).drop BLOCK_SIZE).length = (x :: xs).length - BLOCK_SIZE :=
        List.length_drop _ _
      have hlt : (x :: xs).length - BLOCK_SIZE < n := by
        simp only [List.length_cons, BLOCK_SIZE] at *
        omega
      rw [ih _ hlt _ _ hdrop]
      rw [xor_bytes_length, List.length_take, List.length_take, hE]
      simp only [List.length_cons, List.length_drop, BLOCK_SIZE] at *
      omega

/-- CTR mode is its own inverse: processing twice from the same initial counter
recovers the data (for any block-encrypt function producing 16-byte blocks). -/
theorem ctr_process_involution (E : List Nat → List Nat) (hE : ∀ b, (E b).length = 16)
    (c d : List Nat) : CTR.process E c (CTR.process E c d) = d := by
  generalize hn : d.length = n
  induction n using Nat.strong_induction_on generalizing c d with
  | _ n ih =>
    cases d with
    | nil => simp [ctr_process_nil]
    | cons x xs =>
      have hne : (x :: xs) ≠ ([] : List Nat) := by simp
      rw [ctr_process_cons E c (x :: xs) hne]
      set block := (x :: xs).take BLOCK_SIZE with hblock
      set ks := (E c).take block.length with hks
      have hb16 : block.length ≤ 16 := by
        rw [hblock, List.length_take]
        simp [BLOCK_SIZE]
      have hksl : ks.length = block.length := by
        rw [hks, List.length_take, hE]
        exact Nat.min_eq_left hb16
      have hchunk : (xor_bytes block ks).length = block.length := by
        rw [xor_bytes_length, hksl]; omega
      have hks2 : (E c).take (xor_bytes block ks).length = ks := by
        rw [hchunk, hks]
      rcases Nat.lt_or_ge (x :: xs).length BLOCK_SIZE with hL | hL
      · -- a single short final chunk: the recursive tail is empty
        have hdropnil : (x :: xs).drop BLOCK_SIZE = [] :=
          List.drop_eq_nil_of_le (Nat.le_of_lt hL)
        have hblockall : block = x :: xs := by
          rw [hblock]
          exact List.take_of_length_le (Nat.le_of_lt hL)
        rw [hdropnil, ctr_process_nil, List.append_nil]
        have hcne : xor_bytes block ks ≠ [] := by
          intro hcon
          have := congrArg List.length hcon
          rw [hchunk, hblockall] at this
          simp at this
        rw [ctr_process_cons E c _ hcne]
        have hcb : (xor_bytes block ks).length ≤ BLOCK_SIZE := by
          rw [hchunk]; simpa [BLOCK_SIZE] using hb16
        have ht : (xor_bytes block ks).take BLOCK_SIZE = xor_bytes block ks :=
          List.take_of_length_le hcb
        have hd : (xor_bytes block ks).drop BLOCK_SIZE = [] :=
          List.drop_eq_nil_of_le hcb
        rw [ht, hd, ctr_process_nil, List.append_nil, hks2,
          xor_bytes_cancel block ks hksl, hblockall]
      · -- a full 16-byte chunk followed by the rest
        have hbl16 : block.length = BLOCK_SIZE := by
          rw [hblock, List.length_take]
          exact Nat.min_eq_left hL
        have hchunk16 : (xor_bytes block ks).length = BLOCK_SIZE := by
          rw [hchunk, hbl16]
        have hinner_ne : xor_bytes block ks
            ++ CTR.process E (inc_counter_be c) ((x :: xs).drop BLOCK_SIZE) ≠ [] := by
          intro hcon
          have := congrArg List.length hcon
          rw [List.length_append, hchunk16] at this
          simp [BLOCK_SIZE] at this
        rw [ctr_process_cons E c _ hinner_ne]
        rw [List.take_left' hchunk16, List.drop_left' hchunk16, hks2,
          xor_bytes_cancel block ks hksl]
        have hdl : ((x :: xs).drop BLOCK_SIZE).length < n := by
          rw [List.length_drop]
          simp only [BLOCK_SIZE] at *
          simp only [List.length_cons] at hn hL ⊢
          omega
        rw [ih _ hdl _ _ rfl]
        rw [hblock]
        exact List.take_append_drop BLOCK_SIZE (x :: xs)

-- ==========================================================================
-- EAX lemmas
-- ==========================================================================

theorem cmac_digest_length (E : List Nat → List Nat) (hE : ∀ b, (E b).length = 16)
    (data : List Nat) : (CMAC.digest E data).length = 16 := by
  unfold CMAC.digest
  exact hE _

theorem eax_encrypt_ct_length (E : List Nat → List Nat) (hE : ∀ b, (E b).length = 16)
    (nonce pt aad : List Nat) : (EAX.encrypt E nonce pt aad).1.length = pt.length := by
  unfold EAX.encrypt
  exact ctr_process_length E hE _ _

theorem eax_encrypt_tag_length (E : List Nat → List Nat) (hE : ∀ b, (E b).length = 16)
    (nonce pt aad : List Nat) : (EAX.encrypt E nonce pt aad).2.length = 16 := by
  unfold EAX.encrypt eaxTag
  rw [xor_bytes_length, xor_bytes_length]
  unfold omacPrefixed
  rw [cmac_digest_length E hE, cmac_digest_length E hE, cmac_digest_length E hE]
  omega

/-- EAX decrypt applied to EAX encrypt's output (same block function, nonce and
associated data) authenticates successfully and recovers the plaintext. -/
theorem eax_decrypt_encrypt (E : List Nat → List Nat) (hE : ∀ b, (E b).length = 16)
    (nonce pt aad : List Nat) :
    EAX.decrypt E nonce (EAX.encrypt E nonce pt aad).1 (EAX.encrypt E nonce pt aad).2 aad
      = Except.ok pt := by
  unfold EAX.encrypt EAX.decrypt
  rw [if_pos rfl]
  rw [ctr_process_involution E hE]

-- ==========================================================================
-- The modelled Twofish instance satisfies the block-cipher contract
-- ==========================================================================

theorem twofishPT_length (b : List Nat) : (twofishPT b).length = 16 := by
  unfold twofishPT KEY
  rw [List.length_zipWith, List.length_append, List.length_take, List.length_replicate,
    List.length_replicate]
  omega

theorem twofishPT_lt (b : List Nat) : ∀ x ∈ twofishPT b, x < 256 := by
  intro x hx
  rw [List.mem_iff_getElem] at hx
  obtain ⟨i, hi, hx⟩ := hx
  subst hx
  unfold twofishPT at hi ⊢
  rw [List.getElem_zipWith]
  apply xor_lt_256
  · exact Nat.lt_of_le_of_lt Nat.and_le_right (by norm_num)
  · have hk : i < KEY.length := by
      rw [List.length_zipWith] at hi
      omega
    unfold KEY at hk ⊢
    rw [List.getElem_replicate]
    norm_num

-- ==========================================================================
-- Claims C2, C3, C6
-- ==========================================================================

/-- C2: `EAX.decrypt` authenticates before returning — for every block-encrypt
function, nonce, ciphertext, supplied tag and associated data, it returns the
CTR-recovered plaintext exactly when the recomputed tag `N ⊕ H ⊕ C` equals the
supplied tag, and otherwise fails with `ValueError("EAX authentication failed")`
carrying no part of the recovered plaintext. -/
theorem claim_C2_eax_authenticate_then_return
    (E : List Nat → List Nat) (nonce ciphertext tag aad : List Nat) :
    EAX.decrypt E nonce ciphertext tag aad
      = (if eaxTag E nonce ciphertext aad = tag
         then Except.ok (CTR.process E (omacPrefixed E 0x00 nonce) ciphertext)
         else Except.error (PyError.valueError "EAX authentication failed")) := rfl

/-- C3: EAX authenticated round trip — for every block-encrypt function with 16-byte
output blocks, every 16-byte nonce, every plaintext and every associated-data buffer,
decrypting what encrypt produced (same nonce and aad) succeeds and returns the
original plaintext. -/
theorem claim_C3_eax_roundtrip
    (E : List Nat → List Nat) (nonce pt aad : List Nat)
    (hE : ∀ b, (E b).length = 16) (_hnonce : nonce.length = 16) :
    EAX.decrypt E nonce (EAX.encrypt E nonce pt aad).1 (EAX.encrypt E nonce pt aad).2 aad
      = Except.ok pt :=
  eax_decrypt_encrypt E hE nonce pt aad

theorem claim_C3_witness :
    (∀ b, (twofishPT b).length = 16) ∧ IV.length = 16 ∧
      (EAX.decrypt twofishPT IV (EAX.encrypt twofishPT IV [1, 2, 3] [5]).1
        (EAX.encrypt twofishPT IV [1, 2, 3] [5]).2 [5] = Except.ok [1, 2, 3]) :=
  ⟨twofishPT_length, by decide,
    claim_C3_eax_roundtrip twofishPT IV [1, 2, 3] [5] twofishPT_length (by decide)⟩

/-- C6: obfuscation pass A is a length-preserving involution — `obf_stage2` XORs the
byte at index `i` with `(len(x) - i) & 0xFF`, preserves the length, applying it twice
is the identity, and the decoder-side `deobf_stage2` is the same transform. -/
theorem claim_C6_obf_stage2_involution (x : List Nat) :
    (obf_stage2 x).length = x.length
      ∧ (∀ i, (obf_stage2 x).getD i 0 = x.getD i 0 ^^^ ((x.length - i) &&& 0xFF))
      ∧ obf_stage2 (obf_stage2 x) = x
      ∧ deobf_stage2 x = obf_stage2 x :=
  ⟨obf_stage2_length x, fun i => obf_stage2_getD x i, obf_stage2_involution x, rfl⟩

-- ==========================================================================
-- Container pipeline lemmas
-- ==========================================================================

theorem pack_be32_ok (n : Nat) (h : n < 2 ^ 32) :
    pack_be32 n
      = Except.ok [n / 2 ^ 24 % 256, n / 2 ^ 16 % 256, n / 2 ^ 8 % 256, n % 256] := by
  unfold pack_be32
  rw [if_pos h]

theorem unpackNat_pack (n : Nat) (h : n < 2 ^ 32) :
    unpackNat [n / 2 ^ 24 % 256, n / 2 ^ 16 % 256, n / 2 ^ 8 % 256, n % 256] = n := by
  unfold unpackNat
  simp only [List.foldl_cons, List.foldl_nil]
  omega

theorem zlib_roundtrip (b : List Nat) : zlib_decompress (zlib_compress b) = Except.ok b := by
  unfold zlib_decompress zlib_compress
  rw [if_pos (by simp)]
  simp

/-- The encode pipeline succeeds for every buffer whose length fits the 4-byte
header, producing pass-B-obfuscated `ciphertext ++ tag` over the pass-A-obfuscated
Qt-compressed payload. -/
theorem encrypt_pkt_dataWith_ok (E : List Nat → List Nat) (b : List Nat)
    (hb : b.length < 2 ^ 32) :
    encrypt_pkt_dataWith E b
      = Except.ok (obf_stage1
          ((EAX.encrypt E IV (obf_stage2
              ([b.length / 2 ^ 24 % 256, b.length / 2 ^ 16 % 256,
                b.length / 2 ^ 8 % 256, b.length % 256] ++ zlib_compress b)) []).1
            ++ (EAX.encrypt E IV (obf_stage2
              ([b.length / 2 ^ 24 % 256, b.length / 2 ^ 16 % 256,
                b.length / 2 ^ 8 % 256, b.length % 256] ++ zlib_compress b)) []).2)) := by
  unfold encrypt_pkt_dataWith compress_qt
  rw [pack_be32_ok b.length hb]

/-- Both decoders invert the encoder on every buffer whose length fits the 4-byte
header (any block-encrypt function producing 16-byte blocks). -/
theorem pkt_pipeline_roundtrip (E : List Nat → List Nat) (hE : ∀ x, (E x).length = 16)
    (b : List Nat) (hb : b.length < 2 ^ 32) :
    Except.bind (encrypt_pkt_dataWith E b) (decrypt_pkt_dataWith E) = Except.ok b
      ∧ Except.bind (encrypt_pkt_dataWith E b) (decrypt_pktWith E) = Except.ok b := by
  set hdr : List Nat := [b.length / 2 ^ 24 % 256, b.length / 2 ^ 16 % 256,
    b.length / 2 ^ 8 % 256, b.length % 256] with hhdr
  set C : List Nat := hdr ++ zlib_compress b with hCdef
  have henc : encrypt_pkt_dataWith E b
      = Except.ok (obf_stage1 ((EAX.encrypt E IV (obf_stage2 C) []).1
          ++ (EAX.encrypt E IV (obf_stage2 C) []).2)) :=
    encrypt_pkt_dataWith_ok E b hb
  set ct := (EAX.encrypt E IV (obf_stage2 C) []).1 with hct
  set tg := (EAX.encrypt E IV (obf_stage2 C) []).2 with htg
  have htglen : tg.length = 16 := eax_encrypt_tag_length E hE _ _ _
  have hsplitlen : (ct ++ tg).length - 16 = ct.length := by
    rw [List.length_append, htglen]
    omega
  have hstage1 : deobf_stage1 (obf_stage1 (ct ++ tg)) = ct ++ tg :=
    deobf_stage1_obf_stage1 _
  have htake : (ct ++ tg).take ((ct ++ tg).length - 16) = ct := by
    rw [hsplitlen]; exact List.take_left ct tg
  have hdrop : (ct ++ tg).drop ((ct ++ tg).length - 16) = tg := by
    rw [hsplitlen]; exact List.drop_left ct tg
  have heax : EAX.decrypt E IV ct tg [] = Except.ok (obf_stage2 C) :=
    eax_decrypt_encrypt E hE IV (obf_stage2 C) []
  have hdeobf2 : obf_stage2 (obf_stage2 C) = C := obf_stage2_involution C
  have hhdrlen : hdr.length = 4 := by rw [hhdr]; simp
  have htake4 : C.take 4 = hdr := List.take_left' hhdrlen
  have hdrop4 : C.drop 4 = zlib_compress b := List.drop_left' hhdrlen
  have hClen : C.length = b.length + 6 := by
    rw [hCdef, List.length_append, hhdrlen]
    simp [zlib_compress]
    omega
  have hsize : unpackNat (C.take 4) = b.length := by
    rw [htake4, hhdr]
    exact unpackNat_pack b.length hb
  have hqt : qt_inflate C = Except.ok b := by
    unfold qt_inflate
    rw [if_neg (by omega)]
    rw [hsize, hdrop4]
    have hz2 : (zlib_compress b).take 2 = [0x78, 0x9C] := by simp [zlib_compress]
    rw [hz2, if_neg (by decide)]
    rw [zlib_roundtrip b]
    simp [List.take_length]
  have huq : uncompress_qt C = Except.ok b := by
    unfold uncompress_qt unpack_be32
    rw [htake4, if_pos hhdrlen]
    rw [hhdr] at htake4 ⊢
    rw [unpackNat_pack b.length hb]
    rw [hdrop4, zlib_roundtrip b]
    simp [List.take_length]
  constructor
  · rw [henc]
    show decrypt_pkt_dataWith E (obf_stage1 (ct ++ tg)) = Except.ok b
    unfold decrypt_pkt_dataWith
    rw [hstage1, htake, hdrop, heax]
    show qt_inflate (obf_stage2 (obf_stage2 C)) = Except.ok b
    rw [hdeobf2]
    exact hqt
  · rw [henc]
    show decrypt_pktWith E (obf_stage1 (ct ++ tg)) = Except.ok b
    unfold decrypt_pktWith
    rw [hstage1, htake, hdrop, heax]
    show uncompress_qt (deobf_stage2 (obf_stage2 C)) = Except.ok b
    rw [deobf_stage2_eq_obf_stage2, hdeobf2]
    exact huq

-- ==========================================================================
-- Claims C1, C10 (container round trip / decoder agreement)
-- ==========================================================================

/-- The encode pipeline fails with `struct.error` for every buffer whose length does
not fit Python's `">I"` pack format (the spec's 4-byte big-endian length header). -/
theorem encrypt_pkt_dataWith_err (E : List Nat → List Nat) (b : List Nat)
    (hb : ¬ (b.length < 2 ^ 32)) :
    encrypt_pkt_dataWith E b = Except.error (PyError.structError "argument out of range") := by
  unfold encrypt_pkt_dataWith compress_qt pack_be32
  rw [if_neg hb]

/-- C1 as stated is false at buffers of 2^32 bytes or more: `struct.pack(">I", size)`
in `compress_qt` raises `struct.error` for such lengths, so `encrypt_pkt_data` fails
and no round trip occurs. -/
theorem claim_C1_counterexample :
    ¬ (Except.bind (encrypt_pkt_data (List.replicate (2 ^ 32) 0)) decrypt_pkt_data
        = Except.ok (List.replicate (2 ^ 32) 0)) := by
  intro h
  unfold encrypt_pkt_data at h
  rw [encrypt_pkt_dataWith_err twofishPT (List.replicate (2 ^ 32) 0)
    (by rw [List.length_replicate]; omega)] at h
  exact Except.noConfusion h

/-- C1 (amended): container round-trip identity for every byte buffer that fits the
4-byte length header — for all `b` with `len(b) < 2^32` (including the empty buffer,
a single byte, and non-multiple-of-16 lengths),
`decrypt_pkt_data(encrypt_pkt_data(b)) == b`. -/
theorem claim_C1_roundtrip (b : List Nat) (hb : b.length < 2 ^ 32) :
    Except.bind (encrypt_pkt_data b) decrypt_pkt_data = Except.ok b :=
  (pkt_pipeline_roundtrip twofishPT twofishPT_length b hb).1

theorem claim_C1_witness :
    ([60, 110, 62] : List Nat).length < 2 ^ 32
      ∧ Except.bind (encrypt_pkt_data [60, 110, 62]) decrypt_pkt_data
          = Except.ok [60, 110, 62] :=
  ⟨by decide, claim_C1_roundtrip [60, 110, 62] (by decide)⟩

/-- C10 as stated is false at buffers of 2^32 bytes or more, where
`encrypt_pkt_data` raises instead of producing a container for the decoders to
agree on. -/
theorem claim_C10_counterexample :
    ¬ (Except.bind (encrypt_pkt_data (List.replicate (2 ^ 32) 0)) decrypt_pkt
          = Except.bind (encrypt_pkt_data (List.replicate (2 ^ 32) 0)) decrypt_pkt_data
        ∧ Except.bind (encrypt_pkt_data (List.replicate (2 ^ 32) 0)) decrypt_pkt
          = Except.ok (List.replicate (2 ^ 32) 0)) := by
  intro h
  have h2 := h.2
  unfold encrypt_pkt_data at h2
  rw [encrypt_pkt_dataWith_err twofishPT (List.replicate (2 ^ 32) 0)
    (by rw [List.length_replicate]; omega)] at h2
  exact Except.noConfusion h2

/-- C10 (amended): the legacy decoder `decrypt_pkt` and `decrypt_pkt_data` agree on
every well-formed container produced by `encrypt_pkt_data` from a buffer that fits
the 4-byte length header, both returning the original buffer. -/
theorem claim_C10_decoders_agree (b : List Nat) (hb : b.length < 2 ^ 32) :
    Except.bind (encrypt_pkt_data b) decrypt_pkt
        = Except.bind (encrypt_pkt_data b) decrypt_pkt_data
      ∧ Except.bind (encrypt_pkt_data b) decrypt_pkt = Except.ok b := by
  have h := pkt_pipeline_roundtrip twofishPT twofishPT_length b hb
  exact ⟨h.2.trans h.1.symm, h.2⟩

theorem claim_C10_witness :
    ([1, 2] : List Nat).length < 2 ^ 32
      ∧ (Except.bind (encrypt_pkt_data [1, 2]) decrypt_pkt
            = Except.bind (encrypt_pkt_data [1, 2]) decrypt_pkt_data
          ∧ Except.bind (encrypt_pkt_data [1, 2]) decrypt_pkt = Except.ok [1, 2]) :=
  ⟨by decide, claim_C10_decoders_agree [1, 2] (by decide)⟩

-- ==========================================================================
-- Claims C9, C8 (decode-side container handling)
-- ==========================================================================

/-- C9: corrupt-length rejection — whenever the EAX stage of `decrypt_pkt_data`
succeeds and the deobfuscated inner buffer has fewer than 4 bytes, the function
fails with the malformed-container `ValueError` (the length header is never read:
the guard fires before `struct.unpack`). -/
theorem claim_C9_corrupt_length (E : List Nat → List Nat) (pkt decrypted : List Nat)
    (hd : EAX.decrypt E IV
        ((deobf_stage1 pkt).take ((deobf_stage1 pkt).length - 16))
        ((deobf_stage1 pkt).drop ((deobf_stage1 pkt).length - 16)) [] = Except.ok decrypted)
    (hshort : (obf_stage2 decrypted).length < 4) :
    decrypt_pkt_dataWith E pkt
      = Except.error (PyError.valueError "Corrupted PKT payload: too short after deobfuscation") := by
  unfold decrypt_pkt_dataWith
  rw [hd]
  show qt_inflate (obf_stage2 decrypted) = _
  unfold qt_inflate
  rw [if_pos (by omega)]

theorem claim_C9_witness :
    (EAX.decrypt twofishPT IV
        ((deobf_stage1 (obf_stage1 ((EAX.encrypt twofishPT IV [7] []).1
            ++ (EAX.encrypt twofishPT IV [7] []).2))).take
          ((deobf_stage1 (obf_stage1 ((EAX.encrypt twofishPT IV [7] []).1
            ++ (EAX.encrypt twofishPT IV [7] []).2))).length - 16))
        ((deobf_stage1 (obf_stage1 ((EAX.encrypt twofishPT IV [7] []).1
            ++ (EAX.encrypt twofishPT IV [7] []).2))).drop
          ((deobf_stage1 (obf_stage1 ((EAX.encrypt twofishPT IV [7] []).1
            ++ (EAX.encrypt twofishPT IV [7] []).2))).length - 16)) []
       = Except.ok [7])
    ∧ (obf_stage2 [7]).length < 4
    ∧ decrypt_pkt_dataWith twofishPT
        (obf_stage1 ((EAX.encrypt twofishPT IV [7] []).1
          ++ (EAX.encrypt twofishPT IV [7] []).2))
      = Except.error (PyError.valueError "Corrupted PKT payload: too short after deobfuscation") :=
  ⟨by rfl, by decide,
    claim_C9_corrupt_length twofishPT
      (obf_stage1 ((EAX.encrypt twofishPT IV [7] []).1 ++ (EAX.encrypt twofishPT IV [7] []).2))
      [7] (by rfl) (by decide)⟩

/-- C8: dual-decompressor dispatch — whenever the EAX stage of `decrypt_pkt_data`
succeeds and the inner buffer passes the length guard, the result is obtained by
dispatching on the gzip magic bytes `1F 8B` between `gzip_decompress` and
`zlib_decompress`, truncating the inflated payload to the 4-byte big-endian length
from the header, and turning any decompression failure into the malformed-payload
`ValueError`. -/
theorem claim_C8_dual_decompressor (E : List Nat → List Nat) (pkt decrypted : List Nat)
    (hd : EAX.decrypt E IV
        ((deobf_stage1 pkt).take ((deobf_stage1 pkt).length - 16))
        ((deobf_stage1 pkt).drop ((deobf_stage1 pkt).length - 16)) [] = Except.ok decrypted)
    (hlen : ¬ ((obf_stage2 decrypted).length < 6)) :
    decrypt_pkt_dataWith E pkt
      = match (if ((obf_stage2 decrypted).drop 4).take 2 = [0x1F, 0x8B]
               then gzip_decompress ((obf_stage2 decrypted).drop 4)
               else zlib_decompress ((obf_stage2 decrypted).drop 4)) with
        | Except.ok xml => Except.ok (xml.take (unpackNat ((obf_stage2 decrypted).take 4)))
        | Except.error _ =>
          Except.error (PyError.valueError "Invalid compressed payload in PKT file") := by
  unfold decrypt_pkt_dataWith
  rw [hd]
  show qt_inflate (obf_stage2 decrypted) = _
  unfold qt_inflate
  rw [if_neg hlen]

theorem claim_C8_witness :
    (EAX.decrypt twofishPT IV
        ((deobf_stage1 (obf_stage1
            ((EAX.encrypt twofishPT IV (obf_stage2 ([0, 0, 0, 1] ++ zlib_compress [9])) []).1
              ++ (EAX.encrypt twofishPT IV (obf_stage2 ([0, 0, 0, 1] ++ zlib_compress [9])) []).2))).take
          ((deobf_stage1 (obf_stage1
            ((EAX.encrypt twofishPT IV (obf_stage2 ([0, 0, 0, 1] ++ zlib_compress [9])) []).1
              ++ (EAX.encrypt twofishPT IV (obf_stage2 ([0, 0, 0, 1] ++ zlib_compress [9])) []).2))).length - 16))
        ((deobf_stage1 (obf_stage1
            ((EAX.encrypt twofishPT IV (obf_stage2 ([0, 0, 0, 1] ++ zlib_compress [9])) []).1
              ++ (EAX.encrypt twofishPT IV (obf_stage2 ([0, 0, 0, 1] ++ zlib_compress [9])) []).2))).drop
          ((deobf_stage1 (obf_stage1
            ((EAX.encrypt twofishPT IV (obf_stage2 ([0, 0, 0, 1] ++ zlib_compress [9])) []).1
              ++ (EAX.encrypt twofishPT IV (obf_stage2 ([0, 0, 0, 1] ++ zlib_compress [9])) []).2))).length - 16)) []
       = Except.ok (obf_stage2 ([0, 0, 0, 1] ++ zlib_compress [9])))
    ∧ ¬ ((obf_stage2 (obf_stage2 ([0, 0, 0, 1] ++ zlib_compress [9]))).length < 6)
    ∧ decrypt_pkt_dataWith twofishPT
        (obf_stage1 ((EAX.encrypt twofishPT IV (obf_stage2 ([0, 0, 0, 1] ++ zlib_compress [9])) []).1
          ++ (EAX.encrypt twofishPT IV (obf_stage2 ([0, 0, 0, 1] ++ zlib_compress [9])) []).2))
      = match (if ((obf_stage2 (obf_stage2 ([0, 0, 0, 1] ++ zlib_compress [9]))).drop 4).take 2
                  = [0x1F, 0x8B]
               then gzip_decompress ((obf_stage2 (obf_stage2 ([0, 0, 0, 1] ++ zlib_compress [9]))).drop 4)
               else zlib_decompress ((obf_stage2 (obf_stage2 ([0, 0, 0, 1] ++ zlib_compress [9]))).drop 4)) with
        | Except.ok xml =>
          Except.ok (xml.take (unpackNat ((obf_stage2 (obf_stage2 ([0, 0, 0, 1] ++ zlib_compress [9]))).take 4)))
        | Except.error _ =>
          Except.error (PyError.valueError "Invalid compressed payload in PKT file") :=
  ⟨by rfl, by decide,
    claim_C8_dual_decompressor twofishPT
      (obf_stage1 ((EAX.encrypt twofishPT IV (obf_stage2 ([0, 0, 0, 1] ++ zlib_compress [9])) []).1
        ++ (EAX.encrypt twofishPT IV (obf_stage2 ([0, 0, 0, 1] ++ zlib_compress [9])) []).2))
      (obf_stage2 ([0, 0, 0, 1] ++ zlib_compress [9])) (by rfl) (by decide)⟩

-- ==========================================================================
-- Claim C7 (error taxonomy of decode)
-- ==========================================================================

/-- C7 as stated is false: an EAX tag mismatch and a malformed container raise
errors of the *same* Python exception type (`ValueError`), differing only in
message — shown at two concrete containers (an all-zero 20-byte buffer whose tag
cannot verify, and a well-authenticated container whose inner buffer is empty). -/
theorem claim_C7_counterexample :
    decrypt_pkt_data (List.replicate 20 0)
        = Except.error (PyError.valueError "EAX authentication failed")
      ∧ decrypt_pkt_data
          (obf_stage1 ((EAX.encrypt twofishPT IV [] []).1 ++ (EAX.encrypt twofishPT IV [] []).2))
          = Except.error (PyError.valueError "Corrupted PKT payload: too short after deobfuscation")
      ∧ (PyError.valueError "EAX authentication failed").typeName
          = (PyError.valueError "Corrupted PKT payload: too short after deobfuscation").typeName :=
  ⟨rfl, rfl, rfl⟩

/-- C7 (amended): every error raised by `decrypt_pkt_data` — authentication failure
included — is a `ValueError`; the three failure modes are distinguishable only by
their message strings, not by exception type. -/
theorem claim_C7_amended (E : List Nat → List Nat) (pkt : List Nat) (e : PyError)
    (h : decrypt_pkt_dataWith E pkt = Except.error e) :
    e.typeName = "ValueError"
      ∧ (e = PyError.valueError "EAX authentication failed"
         ∨ e = PyError.valueError "Corrupted PKT payload: too short after deobfuscation"
         ∨ e = PyError.valueError "Invalid compressed payload in PKT file") := by
  unfold decrypt_pkt_dataWith at h
  split at h
  next e' heq =>
    unfold EAX.decrypt at heq
    split at heq
    · exact absurd heq (by simp)
    · have he' : PyError.valueError "EAX authentication failed" = e' := by
        injection heq
      have he : e' = e := by injection h
      rw [← he, ← he']
      exact ⟨rfl, Or.inl rfl⟩
  next d heq =>
    unfold qt_inflate at h
    split at h
    · have he : PyError.valueError "Corrupted PKT payload: too short after deobfuscation" = e := by
        injection h
      rw [← he]
      exact ⟨rfl, Or.inr (Or.inl rfl)⟩
    · split at h
      next xml hx => exact absurd h (by simp)
      next e2 hx =>
        have he : PyError.valueError "Invalid compressed payload in PKT file" = e := by
          injection h
        rw [← he]
        exact ⟨rfl, Or.inr (Or.inr rfl)⟩

theorem claim_C7_witness :
    (decrypt_pkt_dataWith twofishPT (List.replicate 20 0)
        = Except.error (PyError.valueError "EAX authentication failed"))
      ∧ ((PyError.valueError "EAX authentication failed").typeName = "ValueError"
         ∧ (PyError.valueError "EAX authentication failed"
              = PyError.valueError "EAX authentication failed"
            ∨ PyError.valueError "EAX authentication failed"
              = PyError.valueError "Corrupted PKT payload: too short after deobfuscation"
            ∨ PyError.valueError "EAX authentication failed"
              = PyError.valueError "Invalid compressed payload in PKT file")) :=
  ⟨rfl, claim_C7_amended twofishPT (List.replicate 20 0)
    (PyError.valueError "EAX authentication failed") rfl⟩

-- ==========================================================================
-- Byte-string / integer correspondence (for C4 and C5)
-- ==========================================================================

/-- Value of a little-endian byte string. -/
def leNat : List Nat → Nat
  | [] => 0
  | b :: r => b + 256 * leNat r

/-- Value of a big-endian byte string (how CTR counters and CMAC subkeys are read as
128-bit integers). -/
def beNat (c : List Nat) : Nat := leNat c.reverse

/-- The `w` little-endian bytes of `n` (mod `256^w`). -/
def leBytes : Nat → Nat → List Nat
  | 0, _ => []
  | w + 1, n => (n % 256) :: leBytes w (n / 256)

/-- The `w` big-endian bytes of `n` (mod `256^w`). -/
def beBytes (w n : Nat) : List Nat := (leBytes w n).reverse

theorem length_leBytes (w n : Nat) : (leBytes w n).length = w := by
  induction w generalizing n with
  | zero => rfl
  | succ w ih => simp [leBytes, ih]

theorem leBytes_lt (w n : Nat) : ∀ x ∈ leBytes w n, x < 256 := by
  induction w generalizing n with
  | zero => intro x hx; simp [leBytes] at hx
  | succ w ih =>
    intro x hx
    simp only [leBytes, List.mem_cons] at hx
    rcases hx with h | h
    · subst h; exact Nat.mod_lt _ (by norm_num)
    · exact ih _ x h

theorem leNat_lt (l : List Nat) (h : ∀ x ∈ l, x < 256) : leNat l < 256 ^ l.length := by
  induction l with
  | nil => simp [leNat]
  | cons b r ih =>
    have hb : b < 256 := h b (List.mem_cons_self _ _)
    have hr : leNat r < 256 ^ r.length := ih (fun x hx => h x (List.mem_cons_of_mem _ hx))
    simp only [leNat, List.length_cons, pow_succ]
    have := Nat.mul_lt_mul_of_pos_left hr (show 0 < 256 by norm_num)
    omega

theorem leBytes_leNat (l : List Nat) (h : ∀ x ∈ l, x < 256) :
    leBytes l.length (leNat l) = l := by
  induction l with
  | nil => rfl
  | cons b r ih =>
    have hb : b < 256 := h b (List.mem_cons_self _ _)
    simp only [leNat, List.length_cons, leBytes]
    have hmod : (b + 256 * leNat r) % 256 = b := by omega
    have hdiv : (b + 256 * leNat r) / 256 = leNat r := by omega
    rw [hmod, hdiv, ih (fun x hx => h x (List.mem_cons_of_mem _ hx))]

theorem beBytes_beNat (c : List Nat) (h : ∀ x ∈ c, x < 256) :
    beBytes c.length (beNat c) = c := by
  unfold beBytes beNat
  have : c.length = c.reverse.length := (List.length_reverse c).symm
  rw [this, leBytes_leNat c.reverse (fun x hx => h x (List.mem_reverse.mp hx))]
  exact List.reverse_reverse c

theorem length_incLE (l : List Nat) : (incLE l).length = l.length := by
  induction l with
  | nil => rfl
  | cons b r ih =>
    simp only [incLE]
    split <;> simp [ih]

theorem incLE_lt (l : List Nat) (h : ∀ x ∈ l, x < 256) : ∀ x ∈ incLE l, x < 256 := by
  induction l with
  | nil => intro x hx; simp [incLE] at hx
  | cons b r ih =>
    have hnb : (b + 1) &&& 0xFF < 256 := by
      have := Nat.and_le_right (n := b + 1) (m := 0xFF)
      omega
    intro x hx
    simp only [incLE] at hx
    split at hx
    · simp only [List.mem_cons] at hx
      rcases hx with h1 | h1
      · subst h1; exact hnb
      · exact ih (fun y hy => h y (List.mem_cons_of_mem _ hy)) x h1
    · simp only [List.mem_cons] at hx
      rcases hx with h1 | h1
      · subst h1; exact hnb
      · exact h x (List.mem_cons_of_mem _ h1)

theorem and_255_eq_mod (x : Nat) : x &&& 0xFF = x % 256 := by
  have h : (0xFF : Nat) = 2 ^ 8 - 1 := rfl
  rw [h, Nat.and_pow_two_sub_one_eq_mod]

theorem leNat_incLE (l : List Nat) (h : ∀ x ∈ l, x < 256) :
    leNat (incLE l) = (leNat l + 1) % 256 ^ l.length := by
  induction l with
  | nil => rfl
  | cons b r ih =>
    have hb : b < 256 := h b (List.mem_cons_self _ _)
    have hr : ∀ x ∈ r, x < 256 := fun x hx => h x (List.mem_cons_of_mem _ hx)
    have hrlt : leNat r < 256 ^ r.length := leNat_lt r hr
    simp only [incLE, and_255_eq_mod]
    split
    · -- (b + 1) % 256 = 0, i.e. b = 255: carry into the rest
      next h0 =>
      have hb255 : b = 255 := by omega
      subst hb255
      simp only [leNat, List.length_cons, ih hr, pow_succ]
      rw [Nat.mul_comm (256 ^ r.length) 256]
      have harg : 255 + 256 * leNat r + 1 = 256 * (leNat r + 1) := by omega
      rw [harg, Nat.mul_mod_mul_left]
      omega
    · -- no carry
      next h0 =>
      have hblt : b < 255 := by omega
      simp only [leNat, List.length_cons]
      have hsmall : b + 256 * leNat r + 1 < 256 ^ (r.length + 1) := by
        rw [pow_succ]
        have := Nat.mul_lt_mul_of_pos_left hrlt (show 0 < 256 by norm_num)
        omega
      rw [Nat.mod_eq_of_lt hsmall]
      omega

theorem length_inc_counter_be (c : List Nat) : (inc_counter_be c).length = c.length := by
  unfold inc_counter_be
  rw [List.length_reverse, length_incLE, List.length_reverse]

theorem inc_counter_be_lt (c : List Nat) (h : ∀ x ∈ c, x < 256) :
    ∀ x ∈ inc_counter_be c, x < 256 := by
  intro x hx
  unfold inc_counter_be at hx
  rw [List.mem_reverse] at hx
  exact incLE_lt c.reverse (fun y hy => h y (List.mem_reverse.mp hy)) x hx

theorem beNat_inc_counter_be (c : List Nat) (h : ∀ x ∈ c, x < 256) :
    beNat (inc_counter_be c) = (beNat c + 1) % 256 ^ c.length := by
  unfold inc_counter_be beNat
  rw [List.reverse_reverse]
  rw [leNat_incLE c.reverse (fun y hy => h y (List.mem_reverse.mp hy))]
  rw [List.length_reverse]

theorem pow_256_16 : (256 : Nat) ^ 16 = 2 ^ 128 := by norm_num

-- ==========================================================================
-- Claim C5 (CTR keystream correctness)
-- ==========================================================================

/-- Modelled from the claim's words: CTR keystream with an *arithmetic* counter —
the chunk processed `i` steps in is XORed with
`E(beBytes 16 ((n + i) mod 2^128))`, the big-endian bytes of the initial counter
value plus the chunk index, reduced mod 2^128; keystream truncated to the chunk
length.  (Fuel-structured like `ctrGo` for structural recursion.) -/
def ctrSpecGo (E : List Nat → List Nat) : Nat → Nat → List Nat → List Nat
  | 0, _, _ => []
  | fuel + 1, n, data =>
    if data.isEmpty then []
    else
      xor_bytes (data.take BLOCK_SIZE)
          ((E (beBytes 16 (n % 2 ^ 128))).take (data.take BLOCK_SIZE).length)
        ++ ctrSpecGo E fuel (n + 1) (data.drop BLOCK_SIZE)

/-- The reference CTR keystream process of claim C5, starting from integer counter
value `n`. -/
def ctrSpec (E : List Nat → List Nat) (n : Nat) (data : List Nat) : List Nat :=
  ctrSpecGo E data.length n data

theorem ctrSpecGo_mod (E : List Nat → List Nat) :
    ∀ fuel n m data, n % 2 ^ 128 = m % 2 ^ 128 →
      ctrSpecGo E fuel n data = ctrSpecGo E fuel m data := by
  intro fuel
  induction fuel with
  | zero => intro n m data _; rfl
  | succ f ih =>
    intro n m data hnm
    simp only [ctrSpecGo, hnm]
    cases data with
    | nil => rfl
    | cons x xs =>
      simp only [List.isEmpty_cons, Bool.false_eq_true, if_false]
      congr 1
      apply ih
      omega

theorem ctrGo_eq_ctrSpecGo (E : List Nat → List Nat) :
    ∀ fuel c data, c.length = 16 → (∀ x ∈ c, x < 256) →
      ctrGo E fuel c data = ctrSpecGo E fuel (beNat c) data := by
  intro fuel
  induction fuel with
  | zero => intro c data _ _; rfl
  | succ f ih =>
    intro c data hc hcb
    have hclt : beNat c < 2 ^ 128 := by
      have := leNat_lt c.reverse (fun x hx => hcb x (List.mem_reverse.mp hx))
      rw [List.length_reverse, hc, pow_256_16] at this
      exact this
    have hcmod : beNat c % 2 ^ 128 = beNat c := Nat.mod_eq_of_lt hclt
    have hcbytes : beBytes 16 (beNat c % 2 ^ 128) = c := by
      rw [hcmod, ← hc, beBytes_beNat c hcb]
    simp only [ctrGo, ctrSpecGo, hcbytes]
    cases data with
    | nil => rfl
    | cons x xs =>
      simp only [List.isEmpty_cons, Bool.false_eq_true, if_false]
      congr 1
      rw [ih (inc_counter_be c) _ (by rw [length_inc_counter_be, hc])
        (inc_counter_be_lt c hcb)]
      apply ctrSpecGo_mod
      rw [beNat_inc_counter_be c hcb, hc, pow_256_16]
      omega

/-- C5: CTR keystream correctness — for every block-encrypt function, 16-byte
initial counter `c` (with byte values) and data buffer, `CTR.process` equals the
arithmetic-counter reference `ctrSpec` starting at the big-endian value of `c`
(each chunk XORed with `E(c + i mod 2^128)`, keystream truncated to the chunk
length), and the counter increment wraps: the all-`0xFF` counter increments to
all-zero. -/
theorem claim_C5_ctr_keystream (E : List Nat → List Nat) (c data : List Nat)
    (hc : c.length = 16) (hcb : ∀ x ∈ c, x < 256) :
    CTR.process E c data = ctrSpec E (beNat c) data
      ∧ inc_counter_be (List.replicate 16 0xFF) = List.replicate 16 0 :=
  ⟨ctrGo_eq_ctrSpecGo E data.length c data hc hcb, by decide⟩

theorem claim_C5_witness :
    IV.length = 16 ∧ (∀ x ∈ IV, x < 256)
      ∧ (CTR.process twofishPT IV (List.range 40) = ctrSpec twofishPT (beNat IV) (List.range 40)
         ∧ inc_counter_be (List.replicate 16 0xFF) = List.replicate 16 0) :=
  ⟨by decide, by decide,
    claim_C5_ctr_keystream twofishPT IV (List.range 40) (by decide) (by decide)⟩

-- ==========================================================================
-- Bit-level lemmas for the subkey arithmetic (C4)
-- ==========================================================================

theorem lor_le_one_of_even (x c : Nat) (hc : c ≤ 1) (hx : x % 2 = 0) :
    x ||| c = x + c := by
  apply Nat.eq_of_testBit_eq
  intro i
  rw [Nat.testBit_lor]
  cases i with
  | zero =>
    rw [Nat.testBit_zero, Nat.testBit_zero, Nat.testBit_zero]
    rcases (by omega : c = 0 ∨ c = 1) with h | h <;> subst h
    · simp
    · simp
      omega
  | succ j =>
    rw [Nat.testBit_succ, Nat.testBit_succ, Nat.testBit_succ]
    have hdiv : (x + c) / 2 = x / 2 := by omega
    rw [hdiv]
    have hc2 : c / 2 = 0 := by omega
    rw [hc2]
    simp [Nat.zero_testBit]

theorem byte_add_xor (x y K M : Nat) (hx : x < 256) (hy : y < 256) :
    (x + 256 * K) ^^^ (y + 256 * M) = (x ^^^ y) + 256 * (K ^^^ M) := by
  have hxy : x ^^^ y < 256 := xor_lt_256 hx hy
  have e1 : x + 256 * K = 2 ^ 8 * K + x := by omega
  have e2 : y + 256 * M = 2 ^ 8 * M + y := by omega
  have e3 : (x ^^^ y) + 256 * (K ^^^ M) = 2 ^ 8 * (K ^^^ M) + (x ^^^ y) := by omega
  rw [e1, e2, e3]
  apply Nat.eq_of_testBit_eq
  intro j
  rw [Nat.testBit_xor,
    Nat.testBit_mul_pow_two_add K (show x < 2 ^ 8 by norm_num at hx ⊢; omega) j,
    Nat.testBit_mul_pow_two_add M (show y < 2 ^ 8 by norm_num at hy ⊢; omega) j,
    Nat.testBit_mul_pow_two_add (K ^^^ M) (show x ^^^ y < 2 ^ 8 by norm_num at hxy ⊢; omega) j]
  by_cases hj : j < 8
  · simp [hj, Nat.testBit_xor]
  · simp [hj, Nat.testBit_xor]

theorem xor_bytes_lt (a b : List Nat) (ha : ∀ x ∈ a, x < 256) (hb : ∀ x ∈ b, x < 256) :
    ∀ x ∈ xor_bytes a b, x < 256 := by
  induction a generalizing b with
  | nil => intro x hx; simp [xor_bytes] at hx
  | cons p ps ih =>
    cases b with
    | nil => intro x hx; simp [xor_bytes] at hx
    | cons q qs =>
      intro x hx
      simp only [xor_bytes, List.zipWith_cons_cons, List.mem_cons] at hx
      rcases hx with h | h
      · subst h
        exact xor_lt_256 (ha p (List.mem_cons_self _ _)) (hb q (List.mem_cons_self _ _))
      · exact ih qs (fun y hy => ha y (List.mem_cons_of_mem _ hy))
          (fun y hy => hb y (List.mem_cons_of_mem _ hy)) x h

theorem zipWith_xor_reverse (a b : List Nat) (h : a.length = b.length) :
    (xor_bytes a b).reverse = xor_bytes a.reverse b.reverse := by
  induction a generalizing b with
  | nil =>
    cases b with
    | nil => rfl
    | cons q qs => simp at h
  | cons p ps ih =>
    cases b with
    | nil => simp at h
    | cons q qs =>
      have hlen : ps.length = qs.length := by simpa using h
      simp only [xor_bytes, List.zipWith_cons_cons, List.reverse_cons]
      rw [List.zipWith_append _ _ _ _ _ (by simp [hlen])]
      have := ih qs hlen
      simp only [xor_bytes] at this
      rw [this]
      rfl

theorem leNat_xor (a b : List Nat) (hlen : a.length = b.length)
    (ha : ∀ x ∈ a, x < 256) (hb : ∀ x ∈ b, x < 256) :
    leNat (xor_bytes a b) = leNat a ^^^ leNat b := by
  induction a generalizing b with
  | nil =>
    cases b with
    | nil => rfl
    | cons q qs => simp at hlen
  | cons p ps ih =>
    cases b with
    | nil => simp at hlen
    | cons q qs =>
      have hl : ps.length = qs.length := by simpa using hlen
      have hp : p < 256 := ha p (List.mem_cons_self _ _)
      have hq : q < 256 := hb q (List.mem_cons_self _ _)
      simp only [xor_bytes, List.zipWith_cons_cons, leNat]
      have ihh := ih qs hl (fun y hy => ha y (List.mem_cons_of_mem _ hy))
        (fun y hy => hb y (List.mem_cons_of_mem _ hy))
      simp only [xor_bytes] at ihh
      rw [ihh]
      exact (byte_add_xor p q (leNat ps) (leNat qs) hp hq).symm

theorem beNat_xor (a b : List Nat) (hlen : a.length = b.length)
    (ha : ∀ x ∈ a, x < 256) (hb : ∀ x ∈ b, x < 256) :
    beNat (xor_bytes a b) = beNat a ^^^ beNat b := by
  unfold beNat
  rw [zipWith_xor_reverse a b hlen]
  exact leNat_xor a.reverse b.reverse (by simp [hlen])
    (fun x hx => ha x (List.mem_reverse.mp hx))
    (fun x hx => hb x (List.mem_reverse.mp hx))

-- ==========================================================================
-- Left-shift and subkey lemmas (C4)
-- ==========================================================================

theorem length_lshLE (c : Nat) (l : List Nat) : (lshLE c l).length = l.length := by
  induction l generalizing c with
  | nil => rfl
  | cons b r ih => simp [lshLE, ih]

theorem lshLE_head_eq (b c : Nat) (hc : c ≤ 1) :
    ((b <<< 1) &&& 0xFF) ||| c = 2 * (b % 128) + c := by
  have h1 : b <<< 1 = 2 * b := by
    rw [Nat.shiftLeft_eq]
    omega
  have h2 : 2 * b % 256 = 2 * (b % 128) := by
    have := Nat.mul_mod_mul_left 2 b 128
    norm_num at this
    omega
  rw [h1, and_255_eq_mod, h2]
  apply lor_le_one_of_even _ _ hc
  omega

theorem lshLE_carry_eq (b : Nat) (hb : b < 256) : (b &&& 0x80) >>> 7 = b / 128 := by
  have h80 : (0x80 : Nat) = 2 ^ 7 := rfl
  rw [h80, Nat.and_two_pow, Nat.shiftRight_eq_div_pow]
  rw [Nat.mul_div_cancel _ (by norm_num : 0 < 2 ^ 7)]
  rw [Nat.testBit_to_div_mod]
  have h27 : (2 : Nat) ^ 7 = 128 := by norm_num
  rw [h27]
  rcases (by omega : b / 128 = 0 ∨ b / 128 = 1) with h | h <;> simp [h]

theorem lshLE_lt (l : List Nat) : ∀ c, c ≤ 1 → ∀ x ∈ lshLE c l, x < 256 := by
  induction l with
  | nil => intro c _ x hx; simp [lshLE] at hx
  | cons b r ih =>
    intro c hc x hx
    simp only [lshLE, List.mem_cons] at hx
    rcases hx with h | h
    · subst h
      rw [lshLE_head_eq b c hc]
      have := Nat.mod_lt b (show 0 < 128 by norm_num)
      omega
    · apply ih ((b &&& 0x80) >>> 7) _ x h
      have h1 : b &&& 0x80 ≤ 0x80 := Nat.and_le_right
      have h2 : (b &&& 0x80) >>> 7 = (b &&& 0x80) / 128 := by
        rw [Nat.shiftRight_eq_div_pow]
      rw [h2]
      omega

theorem add_mul_mod_256 (A K M : Nat) (hA : A < 256) (hM : 0 < M) :
    (A + 256 * K) % (256 * M) = A + 256 * (K % M) := by
  have h1 : 256 * K % (256 * M) = 256 * (K % M) := Nat.mul_mod_mul_left 256 K M
  have h2 : A % (256 * M) = A := Nat.mod_eq_of_lt (by
    have : 256 ≤ 256 * M := by omega
    omega)
  rw [Nat.add_mod, h1, h2]
  apply Nat.mod_eq_of_lt
  have hKM : K % M < M := Nat.mod_lt _ hM
  omega

theorem leNat_lshLE (l : List Nat) : ∀ c, c ≤ 1 → (∀ x ∈ l, x < 256) →
    leNat (lshLE c l) = (2 * leNat l + c) % 2 ^ (8 * l.length) := by
  induction l with
  | nil =>
    intro c hc _
    simp [lshLE, leNat]
    omega
  | cons b r ih =>
    intro c hc hl
    have hb : b < 256 := hl b (List.mem_cons_self _ _)
    have hr : ∀ x ∈ r, x < 256 := fun x hx => hl x (List.mem_cons_of_mem _ hx)
    simp only [lshLE, leNat, List.length_cons]
    rw [lshLE_head_eq b c hc, lshLE_carry_eq b hb]
    rw [ih (b / 128) (by omega) hr]
    have hpow : 2 ^ (8 * (r.length + 1)) = 256 * 2 ^ (8 * r.length) := by
      have : 8 * (r.length + 1) = 8 + 8 * r.length := by ring
      rw [this, pow_add]
      norm_num
    rw [hpow]
    have harg : 2 * (b + 256 * leNat r) + c
        = (2 * (b % 128) + c) + 256 * (b / 128 + 2 * leNat r) := by omega
    rw [harg]
    rw [add_mul_mod_256 _ _ _ (by omega) (by positivity)]
    have : b / 128 + 2 * leNat r = 2 * leNat r + b / 128 := by omega
    rw [this]

theorem length_left_shift_one (l : List Nat) :
    (left_shift_one l).length = l.length := by
  unfold left_shift_one
  rw [List.length_reverse, length_lshLE, List.length_reverse]

theorem left_shift_one_lt (l : List Nat) : ∀ x ∈ left_shift_one l, x < 256 := by
  intro x hx
  unfold left_shift_one at hx
  rw [List.mem_reverse] at hx
  exact lshLE_lt l.reverse 0 (by omega) x hx

theorem beNat_left_shift_one (l : List Nat) (hl : ∀ x ∈ l, x < 256) :
    beNat (left_shift_one l) = (2 * beNat l) % 2 ^ (8 * l.length) := by
  unfold left_shift_one beNat
  rw [List.reverse_reverse]
  rw [leNat_lshLE l.reverse 0 (by omega) (fun x hx => hl x (List.mem_reverse.mp hx))]
  rw [List.length_reverse, Nat.add_zero]

theorem leNat_leBytes (w n : Nat) : leNat (leBytes w n) = n % 256 ^ w := by
  induction w generalizing n with
  | zero => simp [leBytes, leNat, Nat.mod_one]
  | succ w ih =>
    simp only [leBytes, leNat, ih]
    rw [pow_succ, Nat.mul_comm (256 ^ w) 256]
    exact (Nat.mod_mul).symm

theorem beNat_beBytes (w n : Nat) : beNat (beBytes w n) = n % 256 ^ w := by
  unfold beNat beBytes
  rw [List.reverse_reverse]
  exact leNat_leBytes w n

theorem length_beBytes (w n : Nat) : (beBytes w n).length = w := by
  unfold beBytes
  rw [List.length_reverse, length_leBytes]

theorem beBytes_lt (w n : Nat) : ∀ x ∈ beBytes w n, x < 256 := by
  intro x hx
  unfold beBytes at hx
  rw [List.mem_reverse] at hx
  exact leBytes_lt w n x hx

/-- Modelled from the claim's words (C4): the GF(2^128) doubling step on a 128-bit
integer — multiply by two, and when the top bit was set, drop it (mod 2^128) and
XOR in the reduction constant `0x87`. -/
def gfDouble (x : Nat) : Nat :=
  if x < 2 ^ 127 then 2 * x else ((2 * x) % 2 ^ 128) ^^^ 0x87

theorem gfDouble_lt (x : Nat) (hx : x < 2 ^ 128) : gfDouble x < 2 ^ 128 := by
  unfold gfDouble
  split
  · have h : (2 : Nat) ^ 128 = 2 * 2 ^ 127 := by ring
    omega
  · exact Nat.xor_lt_two_pow (Nat.mod_lt _ (by positivity)) (by norm_num)

theorem leNat_append_byte (xs : List Nat) (b : Nat) :
    leNat (xs ++ [b]) = leNat xs + 256 ^ xs.length * b := by
  induction xs with
  | nil => simp [leNat]
  | cons y ys ih =>
    simp only [List.cons_append, leNat, List.length_cons]
    have hh : leNat (ys.append [b]) = leNat (ys ++ [b]) := rfl
    rw [hh, ih, pow_succ]
    ring

theorem top_bit_iff (l : List Nat) (hlen : l.length = 16) (hb : ∀ x ∈ l, x < 256) :
    (l.getD 0 0 &&& 0x80 ≠ 0) ↔ 2 ^ 127 ≤ beNat l := by
  cases l with
  | nil => simp at hlen
  | cons b r =>
    have hblt : b < 256 := hb b (List.mem_cons_self _ _)
    have hr15 : r.length = 15 := by simpa using hlen
    have hX : leNat r.reverse < 256 ^ 15 := by
      have := leNat_lt r.reverse
        (fun x hx => hb x (List.mem_cons_of_mem _ (List.mem_reverse.mp hx)))
      rwa [List.length_reverse, hr15] at this
    have hval : beNat (b :: r) = leNat r.reverse + 256 ^ 15 * b := by
      unfold beNat
      rw [List.reverse_cons, leNat_append_byte, List.length_reverse, hr15]
    have hand : (b &&& 0x80 ≠ 0) ↔ 128 ≤ b := by
      have h80 : (0x80 : Nat) = 2 ^ 7 := rfl
      rw [h80, Nat.and_two_pow, Nat.testBit_to_div_mod]
      have h27 : (2 : Nat) ^ 7 = 128 := by norm_num
      rw [h27]
      rcases (by omega : b / 128 = 0 ∨ b / 128 = 1) with h | h <;> simp [h] <;> omega
    have hgetD : (b :: r).getD 0 0 = b := rfl
    rw [hgetD, hand, hval]
    have h127 : (2 : Nat) ^ 127 = 256 ^ 15 * 128 := by norm_num
    rw [h127]
    constructor
    · intro h
      have : 256 ^ 15 * 128 ≤ 256 ^ 15 * b := Nat.mul_le_mul_left _ h
      omega
    · intro h
      by_contra hc
      push_neg at hc
      have : 256 ^ 15 * b ≤ 256 ^ 15 * 127 := Nat.mul_le_mul_left _ (by omega)
      have hstep : 256 ^ 15 * 128 = 256 ^ 15 * 127 + 256 ^ 15 := by ring
      omega

/-- One doubling step of `generate_subkeys` (shift, conditional `0x87` XOR into the
last byte) computes the GF(2^128) doubling of the big-endian value. -/
theorem subkey_step (l : List Nat) (hlen : l.length = 16) (hb : ∀ x ∈ l, x < 256) :
    (if l.getD 0 0 &&& 0x80 ≠ 0
     then xor_bytes (left_shift_one l) (List.replicate 15 0 ++ [0x87])
     else left_shift_one l) = beBytes 16 (gfDouble (beNat l)) := by
  have hlsh_len : (left_shift_one l).length = 16 := by rw [length_left_shift_one, hlen]
  have hlsh_lt := left_shift_one_lt l
  have hlsh_val : beNat (left_shift_one l) = (2 * beNat l) % 2 ^ 128 := by
    rw [beNat_left_shift_one l hb, hlen]
  have hlt : beNat l < 2 ^ 128 := by
    have := leNat_lt l.reverse (fun x hx => hb x (List.mem_reverse.mp hx))
    rwa [List.length_reverse, hlen, pow_256_16] at this
  by_cases htop : l.getD 0 0 &&& 0x80 ≠ 0
  · rw [if_pos htop]
    have hge : 2 ^ 127 ≤ beNat l := (top_bit_iff l hlen hb).mp htop
    have hmask_len : (List.replicate 15 0 ++ [0x87] : List Nat).length = 16 := by decide
    have hmask_lt : ∀ x ∈ (List.replicate 15 0 ++ [0x87] : List Nat), x < 256 := by decide
    have hmask_val : beNat (List.replicate 15 0 ++ [0x87] : List Nat) = 0x87 := by decide
    have hxlen : (xor_bytes (left_shift_one l) (List.replicate 15 0 ++ [0x87])).length = 16 := by
      rw [xor_bytes_length, hlsh_len, hmask_len]
      simp
    have hxlt := xor_bytes_lt _ _ hlsh_lt hmask_lt
    have hxval : beNat (xor_bytes (left_shift_one l) (List.replicate 15 0 ++ [0x87]))
        = ((2 * beNat l) % 2 ^ 128) ^^^ 0x87 := by
      rw [beNat_xor _ _ (by rw [hlsh_len, hmask_len]) hlsh_lt hmask_lt, hlsh_val, hmask_val]
    have hgf : gfDouble (beNat l) = ((2 * beNat l) % 2 ^ 128) ^^^ 0x87 := by
      unfold gfDouble
      rw [if_neg (by omega)]
    rw [hgf, ← hxval]
    have hrt := beBytes_beNat (xor_bytes (left_shift_one l) (List.replicate 15 0 ++ [0x87])) hxlt
    rw [hxlen] at hrt
    exact hrt.symm
  · rw [if_neg htop]
    have hlt127 : beNat l < 2 ^ 127 := by
      have := mt (top_bit_iff l hlen hb).mpr htop
      omega
    have hgf : gfDouble (beNat l) = 2 * beNat l := by
      unfold gfDouble
      rw [if_pos hlt127]
    have h2l : (2 * beNat l) % 2 ^ 128 = 2 * beNat l := by
      apply Nat.mod_eq_of_lt
      have h : (2 : Nat) ^ 128 = 2 * 2 ^ 127 := by ring
      omega
    rw [hgf]
    have hrt := beBytes_beNat (left_shift_one l) hlsh_lt
    rw [hlsh_len] at hrt
    rw [← hrt, hlsh_val, h2l]

/-- `generate_subkeys` computes exactly the two GF(2^128) doublings of the claim. -/
theorem generate_subkeys_eq (E : List Nat → List Nat)
    (hE : ∀ b, (E b).length = 16) (hE256 : ∀ b, ∀ x ∈ E b, x < 256) :
    generate_subkeys E
      = (beBytes 16 (gfDouble (beNat (E (List.replicate 16 0)))),
         beBytes 16 (gfDouble (gfDouble (beNat (E (List.replicate 16 0)))))) := by
  unfold generate_subkeys
  simp only [BLOCK_SIZE]
  have hL : (E (List.replicate 16 0)).length = 16 := hE _
  have hLb : ∀ x ∈ E (List.replicate 16 0), x < 256 := hE256 _
  have hLn_lt : beNat (E (List.replicate 16 0)) < 2 ^ 128 := by
    have := leNat_lt (E (List.replicate 16 0)).reverse
      (fun x hx => hLb x (List.mem_reverse.mp hx))
    rwa [List.length_reverse, hL, pow_256_16] at this
  have h1 := subkey_step (E (List.replicate 16 0)) hL hLb
  rw [h1]
  have hk1len : (beBytes 16 (gfDouble (beNat (E (List.replicate 16 0))))).length = 16 :=
    length_beBytes _ _
  have hk1lt := beBytes_lt 16 (gfDouble (beNat (E (List.replicate 16 0))))
  have h2 := subkey_step (beBytes 16 (gfDouble (beNat (E (List.replicate 16 0)))))
    hk1len hk1lt
  rw [h2]
  have hval : beNat (beBytes 16 (gfDouble (beNat (E (List.replicate 16 0)))))
      = gfDouble (beNat (E (List.replicate 16 0))) := by
    rw [beNat_beBytes, pow_256_16]
    exact Nat.mod_eq_of_lt (gfDouble_lt _ hLn_lt)
  rw [hval]

-- ==========================================================================
-- Claim C4 (CMAC digest equals the reference definition)
-- ==========================================================================

/-- Modelled from the claim's words (C4): the CMAC reference digest — subkeys
obtained by GF(2^128) doubling of the big-endian value of `L = E(0^16)` (K1 one
doubling, K2 two); the message split into 16-byte blocks, the empty message treated
as a single empty block requiring padding; a full final block XORed with K1, a
partial or empty one padded with `0x80` then zeros and XORed with K2; every earlier
block through the CBC-MAC chain from the zero block; the digest the encryption of
the chain value XORed with the processed last block. -/
def cmacRef (E : List Nat → List Nat) (data : List Nat) : List Nat :=
  let k1 := beBytes 16 (gfDouble (beNat (E (List.replicate 16 0))))
  let k2 := beBytes 16 (gfDouble (gfDouble (beNat (E (List.replicate 16 0)))))
  let blocks := if data.length = 0 then [[]] else chunks16 data
  let lastb := blocks.getLastD []
  let lastP := if lastb.length = 16 then xor_bytes lastb k1 else xor_bytes (pad lastb) k2
  E (xor_bytes
      (blocks.dropLast.foldl (fun X block => E (xor_bytes X block)) (List.replicate 16 0))
      lastP)

theorem cmac_digest_eq_ref (E : List Nat → List Nat)
    (hE : ∀ b, (E b).length = 16) (hE256 : ∀ b, ∀ x ∈ E b, x < 256)
    (data : List Nat) : CMAC.digest E data = cmacRef E data := by
  unfold CMAC.digest cmacRef
  simp only [BLOCK_SIZE]
  rw [generate_subkeys_eq E hE hE256]
  by_cases h0 : data.length = 0
  · rw [if_pos h0, if_pos h0]
    rfl
  · rw [if_neg h0, if_neg h0]
    by_cases hfull : ((chunks16 data).getLastD []).length = 16
    · rw [if_pos hfull, if_pos hfull]
    · rw [if_neg hfull, if_neg hfull]

/-- C4: `CMAC.digest` equals the reference definition — K1/K2 are the GF(2^128)
doublings of `L = E(0^16)` (1-bit left shift with `0x87` folded into the last byte
when the top bit of `L` is set), a full final block is XORed with K1, a partial or
empty final block is `0x80`-padded and XORed with K2, earlier blocks go through the
CBC-MAC chain from the zero block, and the digest encrypts the chain value XORed
with the processed last block; in particular the zero-length message takes the
padding/K2 branch. -/
theorem claim_C4_cmac_reference (E : List Nat → List Nat) (msg : List Nat)
    (hE : ∀ b, (E b).length = 16) (hE256 : ∀ b, ∀ x ∈ E b, x < 256) :
    CMAC.digest E msg = cmacRef E msg
      ∧ CMAC.digest E []
          = E (xor_bytes (List.replicate 16 0)
              (xor_bytes (pad [])
                (beBytes 16 (gfDouble (gfDouble (beNat (E (List.replicate 16 0)))))))) :=
  ⟨cmac_digest_eq_ref E hE hE256 msg,
    (cmac_digest_eq_ref E hE hE256 []).trans rfl⟩

theorem claim_C4_witness :
    (∀ b, (twofishPT b).length = 16) ∧ (∀ b, ∀ x ∈ twofishPT b, x < 256)
      ∧ (CMAC.digest twofishPT (List.range 20) = cmacRef twofishPT (List.range 20)
         ∧ CMAC.digest twofishPT []
             = twofishPT (xor_bytes (List.replicate 16 0)
                 (xor_bytes (pad [])
                   (beBytes 16 (gfDouble (gfDouble (beNat (twofishPT (List.replicate 16 0))))))))) :=
  ⟨twofishPT_length, twofishPT_lt,
    claim_C4_cmac_reference twofishPT (List.range 20) twofishPT_length twofishPT_lt⟩
